import Mathlib

/-!
Shallow embedding of the erosion simulation core of TerrainGen
(src/erosion.rs).  Floating-point values (f32) are modelled as exact
rationals, i.e. the real-number semantics of the arithmetic the code
performs; the two irrational library operations (f32 square root and the
fractal noise sampler) are modelled respectively by a relational
characterisation (IsVelUpdate), by an explicit function parameter
(sqrtf, noise), or by an Option result where the operation is undefined
(normalizeOpt on the zero vector, whose f32 outcome is NaN).
-/

namespace TerrainGen

/-- Grid side length, from main.rs (crate::SIZE). -/
def SIZE : ℕ := 600

/-- Evaporation rate constant of erosion.rs (0.05). -/
def EVAPORATION : ℚ := 1/20

/-- Inertia constant of erosion.rs (0.1). -/
def INERTIA : ℚ := 1/10

/-- Minimum slope constant of erosion.rs (0.). -/
def MINSLOPE : ℚ := 0

/-- Capacity constant of erosion.rs (800.0). -/
def CAPACITY : ℚ := 800

/-- Deposition rate constant of erosion.rs (0.1). -/
def DEPOSITION : ℚ := 1/10

/-- Erosion rate constant of erosion.rs (0.01). -/
def EROSION : ℚ := 1/100

/-- f32::EPSILON, the machine epsilon 2^-23 used by the evaporation system. -/
def EPSILON : ℚ := 1/8388608

/-- A 2D vector (bevy Vec2) with exact rational components. -/
structure Vec2 where
  x : ℚ
  y : ℚ
deriving DecidableEq

/-- Componentwise vector addition. -/
def Vec2.add (a b : Vec2) : Vec2 := ⟨a.x + b.x, a.y + b.y⟩

/-- Componentwise vector subtraction. -/
def Vec2.sub (a b : Vec2) : Vec2 := ⟨a.x - b.x, a.y - b.y⟩

/-- Multiplication of a vector by a scalar. -/
def Vec2.smul (v : Vec2) (c : ℚ) : Vec2 := ⟨v.x * c, v.y * c⟩

/-- Per-axis clamp of the continuous coordinate used by unroll: negative
values go to 0, values at least size go to size - 1, and values inside
the grid are truncated (the Rust cast to usize, which for the
non-negative values of this branch is the floor). -/
def clampCoord (a : ℚ) (size : ℕ) : ℕ :=
  if a < 0 then 0
  else if (size : ℚ) ≤ a then size - 1
  else ⌊a⌋.toNat

/-- Projection of a continuous position to a flat grid index,
erosion.rs fn unroll. -/
def unroll (pos : Vec2) (size : ℕ) : ℕ :=
  clampCoord pos.x size % size + clampCoord pos.y size * size

/-- The elevation grid: a flat array of heights plus the side length
(erosion.rs struct Elevation). -/
structure Elevation where
  data : List ℚ
  size : ℕ
deriving DecidableEq

/-- Height read at a continuous position,
erosion.rs expression elevation.data[unroll(pos, SIZE)]. -/
def heightAt (e : Elevation) (p : Vec2) : ℚ :=
  e.data.getD (unroll p e.size) 0

/-- The adjusted base index of the 2x2 gradient window of
Elevation::grad: a cell in the rightmost column is shifted one cell
left, a cell whose row neighbour would fall past the end of the data is
shifted one row up. -/
def gradIndex (e : Elevation) (i : ℕ) : ℕ :=
  let i1 := if i % e.size = e.size - 1 then i - 1 else i
  if e.data.length ≤ i1 + e.size then i1 - e.size else i1

/-- Finite-difference gradient at a flat index, erosion.rs
Elevation::grad. -/
def Elevation.grad (e : Elevation) (i : ℕ) : Vec2 :=
  let j := gradIndex e i
  ⟨(e.data.getD (j + 1) 0 - e.data.getD j 0) * (1/2)
      + (e.data.getD (j + 1 + e.size) 0 - e.data.getD (j + e.size) 0) * (1/2),
    (e.data.getD (j + e.size) 0 - e.data.getD j 0) * (1/2)
      + (e.data.getD (j + 1 + e.size) 0 - e.data.getD (j + 1) 0) * (1/2)⟩

/-- The nine neighbourhood offsets visited by Elevation::add, in the
source's loop order (dx outer from -1 to 1, dy inner). -/
def depositOffsets : List (Int × Int) :=
  [(-1, -1), (-1, 0), (-1, 1), (0, -1), (0, 0), (0, 1), (1, -1), (1, 0), (1, 1)]

/-- Deposit weight by taxicab distance of the offset: 0.05 on the
diagonals, 0.1 on the edges, 0.4 in the centre. -/
def depositWeight (dx dy : Int) : ℚ :=
  if dx.natAbs + dy.natAbs = 2 then 1/20
  else if dx.natAbs + dy.natAbs = 1 then 1/10
  else 2/5

/-- One iteration of the Elevation::add loop body: add the weighted
amount to the cell the offset projects to. -/
def addCell (size : ℕ) (pos : Vec2) (v : ℚ) (d : List ℚ) (o : Int × Int) : List ℚ :=
  let i := unroll ⟨pos.x + (o.1 : ℚ), pos.y + (o.2 : ℚ)⟩ size
  d.set i (d.getD i 0 + v * depositWeight o.1 o.2)

/-- Weighted 3x3 deposit of an amount around a position,
erosion.rs Elevation::add. -/
def Elevation.add (e : Elevation) (pos : Vec2) (v : ℚ) : Elevation :=
  ⟨depositOffsets.foldl (addCell e.size pos v) e.data, e.size⟩

/-- A droplet (erosion.rs struct Droplet). -/
structure Droplet where
  pos : Vec2
  dir : Vec2
  vel : ℚ
  water : ℚ
  sediment : ℚ
deriving DecidableEq

/-- A freshly spawned droplet, erosion.rs Droplet::new. -/
def Droplet.new (pos : Vec2) : Droplet :=
  ⟨pos, ⟨0, 0⟩, 0, 1, 0⟩

/-- The evaporation system: droplets whose water is below f32::EPSILON
are despawned, the rest stay in the pool. -/
def evaporationSystem (pool : List Droplet) : List Droplet :=
  pool.filter (fun d => !(decide (d.water < EPSILON)))

/-- The water update of hydrolic_erosion (line 201), applied with the
already-updated velocity. -/
def waterUpdate (vel water : ℚ) : ℚ :=
  water * (1 - EVAPORATION * (1 - vel))

/-- Relational characterisation of the velocity update of
hydrolic_erosion (line 200): the new velocity is the non-negative
square root of max (vel^2 + hdif) 0. -/
def IsVelUpdate (vel hdif vel' : ℚ) : Prop :=
  0 ≤ vel' ∧ vel' ^ 2 = max (vel ^ 2 + hdif) 0

instance (vel hdif vel' : ℚ) : Decidable (IsVelUpdate vel hdif vel') :=
  inferInstanceAs (Decidable (_ ∧ _))

/-- Height drop of a step: old height minus new height. -/
def hdifAt (e : Elevation) (oldPos newPos : Vec2) : ℚ :=
  heightAt e oldPos - heightAt e newPos

/-- Capacity difference of hydrolic_erosion (lines 187-188). -/
def cdifAt (e : Elevation) (oldPos newPos : Vec2) (vel water sediment : ℚ) : ℚ :=
  max (hdifAt e oldPos newPos) MINSLOPE * vel * water * CAPACITY - sediment

/-- The sediment-exchange part of one hydrolic_erosion step
(lines 184-199): returns the droplet's new sediment and the updated
elevation.  The deposit branch runs when the capacity difference is
negative; otherwise the erosion branch runs only above water level
(new height at least 0); otherwise nothing changes. -/
def sedimentStep (e : Elevation) (oldPos newPos : Vec2) (vel water sediment : ℚ) :
    ℚ × Elevation :=
  let hdif := hdifAt e oldPos newPos
  let cdif := cdifAt e oldPos newPos vel water sediment
  if cdif < 0 then
    (sediment - (-cdif * DEPOSITION), e.add oldPos (-cdif * DEPOSITION))
  else if 0 ≤ heightAt e newPos then
    (sediment + min (cdif * EROSION) hdif, e.add oldPos (-(min (cdif * EROSION) hdif)))
  else
    (sediment, e)

/-- glam Vec2::normalize, which computes v * (1 / length v).  On the
zero vector the f32 computation produces NaN (0 * inf); the NaN outcome
has no rational value and is modelled as none.  The square root of the
squared length is supplied as the function parameter sqrtf. -/
def normalizeOpt (sqrtf : ℚ → ℚ) (v : Vec2) : Option Vec2 :=
  if v = ⟨0, 0⟩ then none
  else some (v.smul (1 / sqrtf (v.x * v.x + v.y * v.y)))

/-- The direction update of hydrolic_erosion (lines 180-181):
normalize (dir * INERTIA * vel - g * (1 - INERTIA * vel)). -/
def dirStep (sqrtf : ℚ → ℚ) (dir : Vec2) (vel : ℚ) (g : Vec2) : Option Vec2 :=
  normalizeOpt sqrtf ((dir.smul (INERTIA * vel)).sub (g.smul (1 - INERTIA * vel)))

/-- An emission source (erosion.rs struct Source); stock is the
fractional-flow accumulator. -/
structure Source where
  pos : Vec2
  flux : ℚ
  stock : ℚ
deriving DecidableEq

/-- One emission, erosion.rs Source::flow: add the flux to the stock,
emit the floor of the stock as droplets and keep the remainder.  The
Rust cast of the emitted count to u32 saturates below at 0, modelled by
Int.toNat. -/
def Source.flow (s : Source) : Source × ℕ :=
  let stock1 := s.stock + s.flux
  let drops := ⌊stock1⌋
  (⟨s.pos, s.flux, stock1 - drops⟩, drops.toNat)

/-- Running a source for T consecutive ticks from a fresh Source
(stock 0, erosion.rs Source::new), returning the final source and the
total number of droplets emitted. -/
def Source.run (pos : Vec2) (flux : ℚ) : ℕ → Source × ℕ
  | 0 => (⟨pos, flux, 0⟩, 0)
  | T + 1 =>
    let r := Source.run pos flux T
    let f := r.1.flow
    (f.1, r.2 + f.2)

/-- Height of one generated cell: the fractal noise sampled at the
normalized coordinates, minus the radial falloff, plus the 0.5 bias
(erosion.rs Elevation::new, loop body).  The noise sampler and the f32
square root are supplied as function parameters. -/
def cellHeight (size : ℕ) (noise : ℚ → ℚ → ℚ) (sqrtf : ℚ → ℚ) (a b : ℕ) : ℚ :=
  let na : ℚ := 2 * (a : ℚ) / (size : ℚ) - 1
  let nb : ℚ := 2 * (b : ℚ) / (size : ℚ) - 1
  noise na nb - sqrtf (na * na + nb * nb) + 1/2

/-- The generated height array of erosion.rs Elevation::new:
iproduct!(0..size, 0..size) iterates its first range as the outer loop,
so the cell of outer index a and inner index b lands at flat position
a * size + b. -/
def elevationNew (size : ℕ) (noise : ℚ → ℚ → ℚ) (sqrtf : ℚ → ℚ) : List ℚ :=
  (List.range size).flatMap fun a =>
    (List.range size).map fun b => cellHeight size noise sqrtf a b

/-! Helper lemmas (shared; none of these is a claim theorem). -/

/-- Setting an entry of a list to its current value leaves the list
unchanged. -/
lemma set_getD_self : ∀ (l : List ℚ) (i : ℕ), l.set i (l.getD i 0) = l
  | [], _ => rfl
  | _ :: _, 0 => rfl
  | b :: l, i + 1 => by
    simp only [List.set, List.getD_cons_succ]
    rw [set_getD_self l i]

/-- Sum of a list after an in-bounds update. -/
lemma sum_set_getD (a : ℚ) : ∀ (l : List ℚ) (i : ℕ), i < l.length →
    (l.set i a).sum = l.sum + a - l.getD i 0
  | [], i, h => by simp at h
  | b :: l, 0, _ => by
    simp only [List.set, List.sum_cons, List.getD_cons_zero]
    ring
  | b :: l, i + 1, h => by
    simp only [List.set, List.sum_cons, List.getD_cons_succ]
    rw [sum_set_getD a l i (by simpa using h)]
    ring

/-- The per-axis clamp always lands strictly inside the grid. -/
lemma clampCoord_lt (a : ℚ) (size : ℕ) (h : 1 ≤ size) : clampCoord a size < size := by
  unfold clampCoord
  split_ifs with h1 h2
  · omega
  · omega
  · have ha : 0 ≤ a := not_lt.mp h1
    have ha2 : a < (size : ℚ) := not_le.mp h2
    have hfl : ⌊a⌋ < (size : ℤ) := Int.floor_lt.mpr (by exact_mod_cast ha2)
    have h0 : 0 ≤ ⌊a⌋ := Int.floor_nonneg.mpr ha
    omega

/-- The projected flat index is always inside the data array. -/
lemma unroll_lt (pos : Vec2) (size : ℕ) (h : 1 ≤ size) :
    unroll pos size < size * size := by
  unfold unroll
  have hx := Nat.mod_lt (clampCoord pos.x size) (show 0 < size by omega)
  have hy := clampCoord_lt pos.y size h
  calc clampCoord pos.x size % size + clampCoord pos.y size * size
      < size + clampCoord pos.y size * size := by omega
    _ = (clampCoord pos.y size + 1) * size := by ring
    _ ≤ size * size := Nat.mul_le_mul_right size (by omega)

/-- One add-loop iteration preserves the length of the data array. -/
lemma addCell_length (size : ℕ) (pos : Vec2) (v : ℚ) (d : List ℚ) (o : Int × Int) :
    (addCell size pos v d o).length = d.length := by
  simp [addCell]

/-- The add loop increases the total height by the amount times the sum
of the visited weights, for any offset list. -/
lemma addFold_sum (size : ℕ) (pos : Vec2) (v : ℚ) (hsz : 1 ≤ size) :
    ∀ (os : List (Int × Int)) (d : List ℚ), d.length = size * size →
      (os.foldl (addCell size pos v) d).sum
        = d.sum + v * (os.map fun o => depositWeight o.1 o.2).sum
  | [], d, _ => by simp
  | o :: os, d, hlen => by
    have hi : unroll ⟨pos.x + (o.1 : ℚ), pos.y + (o.2 : ℚ)⟩ size < d.length := by
      rw [hlen]; exact unroll_lt _ _ hsz
    have hstep : (addCell size pos v d o).sum = d.sum + v * depositWeight o.1 o.2 := by
      unfold addCell
      rw [sum_set_getD _ _ _ hi]
      ring
    have hlen' : (addCell size pos v d o).length = size * size := by
      rw [addCell_length]; exact hlen
    rw [List.foldl_cons, addFold_sum size pos v hsz os _ hlen', hstep]
    simp only [List.map_cons, List.sum_cons]
    ring

/-- Total height change of a deposit call equals the deposited amount:
the nine weights sum to one. -/
lemma add_sum (e : Elevation) (pos : Vec2) (v : ℚ)
    (hsz : 1 ≤ e.size) (hlen : e.data.length = e.size * e.size) :
    (e.add pos v).data.sum = e.data.sum + v := by
  show (depositOffsets.foldl (addCell e.size pos v) e.data).sum = _
  rw [addFold_sum e.size pos v hsz depositOffsets e.data hlen]
  have hw : ((depositOffsets.map fun o => depositWeight o.1 o.2).sum : ℚ) = 1 := by
    norm_num [depositOffsets, depositWeight]
  rw [hw, mul_one]

/-- Adding amount zero leaves every cell unchanged. -/
lemma addFold_zero (size : ℕ) (pos : Vec2) :
    ∀ (os : List (Int × Int)) (d : List ℚ), os.foldl (addCell size pos 0) d = d
  | [], _ => rfl
  | o :: os, d => by
    have hcell : addCell size pos 0 d o = d := by
      unfold addCell
      simp only [zero_mul, add_zero]
      exact set_getD_self d _
    rw [List.foldl_cons, hcell, addFold_zero size pos os d]

/-- Deposit of amount zero does not change the data array. -/
lemma add_zero_data (e : Elevation) (pos : Vec2) : (e.add pos 0).data = e.data :=
  addFold_zero e.size pos depositOffsets e.data

/-- Flattening an outer-times-inner iteration into a single range. -/
lemma range_flatMap_map {α : Type} (m : ℕ) (f : ℕ → ℕ → α) :
    ∀ n, (List.range n).flatMap (fun a => (List.range m).map (f a))
      = (List.range (n * m)).map (fun k => f (k / m) (k % m))
  | 0 => by simp
  | n + 1 => by
    rw [List.range_succ, List.flatMap_append, range_flatMap_map m f n]
    have h2 : (n + 1) * m = n * m + m := by ring
    rw [h2, List.range_add, List.map_append, List.map_map]
    congr 1
    · simp only [List.flatMap_cons, List.flatMap_nil, List.append_nil]
      apply List.map_congr_left
      intro j hj
      have hjm : j < m := List.mem_range.mp hj
      have hd : (n * m + j) / m = n := by
        rw [Nat.add_comm, Nat.add_mul_div_right _ _ (show 0 < m by omega),
          Nat.div_eq_of_lt hjm]
        omega
      have hmod : (n * m + j) % m = j := by
        rw [Nat.add_comm, Nat.add_mul_mod_self_right, Nat.mod_eq_of_lt hjm]
      simp [Function.comp, hd, hmod]

/-- The generated array read at the flat index x + y * size yields the
cell of outer loop index y and inner loop index x. -/
lemma elevationNew_getD (size x y : ℕ) (hx : x < size) (hy : y < size)
    (noise : ℚ → ℚ → ℚ) (sqrtf : ℚ → ℚ) :
    (elevationNew size noise sqrtf).getD (x + y * size) 0
      = cellHeight size noise sqrtf y x := by
  unfold elevationNew
  rw [range_flatMap_map]
  have hk : x + y * size < size * size := by
    calc x + y * size < size + y * size := by omega
      _ = (y + 1) * size := by ring
      _ ≤ size * size := Nat.mul_le_mul_right size (by omega)
  have hd : (x + y * size) / size = y := by
    rw [Nat.add_mul_div_right _ _ (show 0 < size by omega), Nat.div_eq_of_lt hx]
    omega
  have hm : (x + y * size) % size = x := by
    rw [Nat.add_mul_mod_self_right, Nat.mod_eq_of_lt hx]
  rw [List.getD_eq_getElem _ _ (by simpa using hk)]
  simp only [List.getElem_map, List.getElem_range]
  rw [hd, hm]

/-- The column shift of the gradient window: after it, the column is at
most size - 2 and the index did not grow. -/
lemma gradShiftCol_spec (s i : ℕ) (hs : 2 ≤ s) (_hi : i < s * s) :
    (if i % s = s - 1 then i - 1 else i) % s ≤ s - 2 ∧
      (if i % s = s - 1 then i - 1 else i) ≤ i := by
  split_ifs with h
  · refine ⟨?_, by omega⟩
    have hdm := Nat.div_add_mod i s
    have h2 : i - 1 = s * (i / s) + (s - 2) := by omega
    rw [h2, Nat.mul_add_mod, Nat.mod_eq_of_lt (by omega)]
  · have := Nat.mod_lt i (show 0 < s by omega)
    exact ⟨by omega, le_refl i⟩

/-- The row shift of the gradient window: after it, the whole 2x2
window row fits, and the column is unchanged. -/
lemma gradShiftRow_spec (s i : ℕ) (hs : 2 ≤ s) (_hi : i < s * s) :
    (if s * s ≤ i + s then i - s else i) + s < s * s ∧
      (if s * s ≤ i + s then i - s else i) % s = i % s := by
  have hss : 2 * s ≤ s * s := Nat.mul_le_mul hs (le_refl s)
  split_ifs with h
  · have his : s ≤ i := by omega
    refine ⟨by omega, ?_⟩
    conv_rhs => rw [show i = s + (i - s) by omega]
    rw [Nat.add_mod_left]
  · exact ⟨by omega, rfl⟩

/-- Invariant of the source accumulator: it stays in [0,1), the flux is
unchanged, and emitted droplets plus the accumulator account exactly
for flux * T. -/
lemma source_run_invariant (pos : Vec2) (flux : ℚ) (hf : 0 ≤ flux) :
    ∀ T : ℕ, 0 ≤ (Source.run pos flux T).1.stock ∧ (Source.run pos flux T).1.stock < 1 ∧
      (Source.run pos flux T).1.flux = flux ∧
      (((Source.run pos flux T).2 : ℚ) + (Source.run pos flux T).1.stock = flux * T)
  | 0 => by simp [Source.run]
  | T + 1 => by
    obtain ⟨h0, h1, hfl, hsum⟩ := source_run_invariant pos flux hf T
    have hstock1 : 0 ≤ (Source.run pos flux T).1.stock + flux := add_nonneg h0 hf
    have hfloor : 0 ≤ ⌊(Source.run pos flux T).1.stock + flux⌋ :=
      Int.floor_nonneg.mpr hstock1
    have hfr0 := Int.fract_nonneg ((Source.run pos flux T).1.stock + flux)
    have hfr1 := Int.fract_lt_one ((Source.run pos flux T).1.stock + flux)
    rw [Int.fract] at hfr0 hfr1
    have hcast : ((⌊(Source.run pos flux T).1.stock + flux⌋.toNat : ℕ) : ℚ)
        = ((⌊(Source.run pos flux T).1.stock + flux⌋ : ℤ) : ℚ) := by
      exact_mod_cast Int.toNat_of_nonneg hfloor
    simp only [Source.run, Source.flow, hfl]
    refine ⟨hfr0, hfr1, by simp [hfl], ?_⟩
    push_cast [hcast]
    linear_combination hsum

/-! Claim theorems.  Each theorem carries the claim id it settles. -/

/-- C1 (counterexample): the claim that water is non-increasing over all
ticks is false: a velocity update with height drop 4 yields the new
velocity 2, and the water update then multiplies water 1 by
1 - EVAPORATION * (1 - 2) = 21/20 > 1, increasing it. -/
theorem water_despawn_cex : IsVelUpdate 0 4 2 ∧ ¬ waterUpdate 2 1 ≤ 1 := by
  norm_num [IsVelUpdate, waterUpdate, EVAPORATION]

/-- C1 (amended): the per-tick water update is non-increasing whenever
the updated velocity is at most 1 and the water is non-negative, and
every droplet kept by the evaporation system has water at least
f32::EPSILON (droplets below the threshold are removed). -/
theorem water_despawn_amended :
    (∀ vel hdif water vel', IsVelUpdate vel hdif vel' → vel' ≤ 1 → 0 ≤ water →
      waterUpdate vel' water ≤ water) ∧
    (∀ (pool : List Droplet) (d : Droplet), d ∈ evaporationSystem pool →
      ¬ d.water < EPSILON) := by
  constructor
  · intro vel hdif water vel' hv hle hw
    simp only [waterUpdate, EVAPORATION]
    nlinarith [hv.1, mul_nonneg hw (show (0:ℚ) ≤ 1 - vel' by linarith)]
  · intro pool d hd
    simp only [evaporationSystem, List.mem_filter, Bool.not_eq_eq_eq_not, Bool.not_true,
      decide_eq_false_iff_not] at hd
    exact hd.2

/-- C1 (witness): the amended theorem applied at the updated velocity
1/2 with water 1, and at a one-droplet pool containing a fresh droplet
(water 1, above the threshold). -/
theorem water_despawn_witness :
    waterUpdate (1/2) 1 ≤ 1 ∧ ¬ (Droplet.new ⟨0, 0⟩).water < EPSILON :=
  ⟨water_despawn_amended.1 0 (1/4) 1 (1/2) (by norm_num [IsVelUpdate]) (by norm_num)
      (by norm_num),
   water_despawn_amended.2 [Droplet.new ⟨0, 0⟩] (Droplet.new ⟨0, 0⟩)
      (by norm_num [evaporationSystem, List.mem_filter, Droplet.new, EPSILON])⟩

/-- C2 (counterexample): a droplet with sediment 0 whose step goes
uphill (height drop -1) while the new cell is above water level takes
the erosion branch with amount min(0, -1) = -1, leaving sediment -1,
which is negative. -/
theorem sediment_nonneg_cex :
    ¬ 0 ≤ (sedimentStep ⟨[0, 1, 0, 0], 2⟩ ⟨0, 0⟩ ⟨1, 0⟩ 0 1 0).1 := by
  norm_num [sedimentStep, cdifAt, hdifAt, heightAt, unroll, clampCoord,
    MINSLOPE, CAPACITY, EROSION, DEPOSITION, List.getD]

/-- C2 (amended): starting from non-negative velocity, water and
sediment, one sediment update keeps sediment non-negative provided the
step is not an uphill erosion step, i.e. provided the height drop is
non-negative, or the deposit branch is taken, or the new cell is below
water level (no branch taken). -/
theorem sediment_nonneg_amended (e : Elevation) (oldPos newPos : Vec2)
    (vel water sediment : ℚ) (hv : 0 ≤ vel) (hw : 0 ≤ water) (hs : 0 ≤ sediment)
    (hcase : 0 ≤ hdifAt e oldPos newPos ∨
      cdifAt e oldPos newPos vel water sediment < 0 ∨ heightAt e newPos < 0) :
    0 ≤ (sedimentStep e oldPos newPos vel water sediment).1 := by
  simp only [sedimentStep]
  split_ifs with h1 h2
  · have h0 : (0:ℚ) ≤ max (hdifAt e oldPos newPos) MINSLOPE :=
      le_trans (by norm_num [MINSLOPE]) (le_max_right _ _)
    have hprod : 0 ≤ max (hdifAt e oldPos newPos) MINSLOPE * vel * water * CAPACITY :=
      mul_nonneg (mul_nonneg (mul_nonneg h0 hv) hw) (by norm_num [CAPACITY])
    simp only [cdifAt] at h1 ⊢
    simp only [DEPOSITION]
    linarith
  · have hhd : 0 ≤ hdifAt e oldPos newPos := by
      rcases hcase with h | h | h
      · exact h
      · exact absurd h h1
      · exact absurd h2 (not_le.mpr h)
    have hcd : 0 ≤ cdifAt e oldPos newPos vel water sediment := not_lt.mp h1
    have hmin : 0 ≤ min (cdifAt e oldPos newPos vel water sediment * EROSION)
        (hdifAt e oldPos newPos) :=
      le_min (mul_nonneg hcd (by norm_num [EROSION])) hhd
    simp only
    linarith
  · exact hs

/-- C2 (witness): the amended theorem applied to a downhill step
(height drop 1) of a fresh droplet on a concrete 2x2 grid. -/
theorem sediment_nonneg_witness :
    0 ≤ (sedimentStep ⟨[0, 1, 0, 0], 2⟩ ⟨1, 0⟩ ⟨0, 0⟩ 0 1 0).1 :=
  sediment_nonneg_amended ⟨[0, 1, 0, 0], 2⟩ ⟨1, 0⟩ ⟨0, 0⟩ 0 1 0 (by norm_num) (by norm_num)
    (by norm_num)
    (Or.inl (by norm_num [hdifAt, heightAt, unroll, clampCoord, List.getD]))

/-- C3 (counterexample): with grid size 2, the asymmetric noise
noise(a,b) = a and the identity standing for sqrt, the generated array
read at flat index x + y * size for the cell (x,y) = (1,0) differs from
the claimed value noise(u,v) - sqrt(u*u+v*v) + 1/2 with u = 2x/N - 1 and
v = 2y/N - 1: the array stores -3/2 while the claim predicts -1/2. -/
theorem elevation_new_claim_cex :
    ¬ (elevationNew 2 (fun a _ => a) (fun q => q)).getD (1 + 0 * 2) 0
        = (fun a (_ : ℚ) => a) (2 * (1 : ℚ) / 2 - 1) (2 * (0 : ℚ) / 2 - 1)
          - (fun q => q) ((2 * (1 : ℚ) / 2 - 1) * (2 * (1 : ℚ) / 2 - 1)
              + (2 * (0 : ℚ) / 2 - 1) * (2 * (0 : ℚ) / 2 - 1)) + 1/2 := by
  norm_num [elevationNew, cellHeight, List.range_succ]

/-- C3 (amended): the height array stores at row-major index x + y * N
the value noise(v, u) - sqrt(u*u + v*v) + 1/2 where u = 2x/N - 1 comes
from the column and v = 2y/N - 1 from the row: the noise is sampled with
its two arguments swapped relative to the claim, while the radial term
and the bias are as claimed. -/
theorem elevation_new_transposed (size x y : ℕ) (hx : x < size) (hy : y < size)
    (noise : ℚ → ℚ → ℚ) (sqrtf : ℚ → ℚ) :
    (elevationNew size noise sqrtf).getD (x + y * size) 0
      = noise (2 * (y : ℚ) / (size : ℚ) - 1) (2 * (x : ℚ) / (size : ℚ) - 1)
        - sqrtf ((2 * (x : ℚ) / (size : ℚ) - 1) * (2 * (x : ℚ) / (size : ℚ) - 1)
            + (2 * (y : ℚ) / (size : ℚ) - 1) * (2 * (y : ℚ) / (size : ℚ) - 1)) + 1/2 := by
  rw [elevationNew_getD size x y hx hy noise sqrtf]
  simp only [cellHeight]
  rw [add_comm ((2 * (y : ℚ) / (size : ℚ) - 1) * (2 * (y : ℚ) / (size : ℚ) - 1))
    ((2 * (x : ℚ) / (size : ℚ) - 1) * (2 * (x : ℚ) / (size : ℚ) - 1))]

/-- C3 (witness): the amended theorem evaluated at size 2 and cell
(x,y) = (1,0) with the asymmetric noise noise(a,b) = a. -/
theorem elevation_new_witness :
    (elevationNew 2 (fun a _ => a) (fun q => q)).getD (1 + 0 * 2) 0
      = (fun a (_ : ℚ) => a) (2 * ((0 : ℕ) : ℚ) / ((2 : ℕ) : ℚ) - 1)
          (2 * ((1 : ℕ) : ℚ) / ((2 : ℕ) : ℚ) - 1)
        - (fun q => q) ((2 * ((1 : ℕ) : ℚ) / ((2 : ℕ) : ℚ) - 1)
              * (2 * ((1 : ℕ) : ℚ) / ((2 : ℕ) : ℚ) - 1)
            + (2 * ((0 : ℕ) : ℚ) / ((2 : ℕ) : ℚ) - 1)
              * (2 * ((0 : ℕ) : ℚ) / ((2 : ℕ) : ℚ) - 1)) + 1/2 :=
  elevation_new_transposed 2 1 0 (by norm_num) (by norm_num) (fun a _ => a) (fun q => q)

/-- C4: a deposit call changes the total height of the grid by exactly
the deposited amount, for every position (interior or clamped edge),
since the nine weights 0.4 + 4*0.1 + 4*0.05 sum to 1 and every
out-of-grid neighbour is clamped onto the grid. -/
theorem deposit_mass_conserving (e : Elevation) (pos : Vec2) (v : ℚ)
    (hsz : 1 ≤ e.size) (hlen : e.data.length = e.size * e.size) :
    (e.add pos v).data.sum = e.data.sum + v :=
  add_sum e pos v hsz hlen

/-- C4 (witness): the deposit theorem applied to a concrete 2x2 grid at
the edge position (0,0) with amount 1. -/
theorem deposit_mass_witness :
    ((⟨[0, 0, 0, 0], 2⟩ : Elevation).add ⟨0, 0⟩ 1).data.sum
      = (⟨[0, 0, 0, 0], 2⟩ : Elevation).data.sum + 1 :=
  deposit_mass_conserving ⟨[0, 0, 0, 0], 2⟩ ⟨0, 0⟩ 1 (by norm_num) rfl

/-- C5: when the erosion branch is taken (capacity difference not
negative and new height at least 0), the total height removed from the
terrain by the step is at most the height drop of the step. -/
theorem erosion_bound (e : Elevation) (oldPos newPos : Vec2) (vel water sediment : ℚ)
    (hsz : 1 ≤ e.size) (hlen : e.data.length = e.size * e.size)
    (hc : ¬ cdifAt e oldPos newPos vel water sediment < 0)
    (hh : 0 ≤ heightAt e newPos) :
    e.data.sum - (sedimentStep e oldPos newPos vel water sediment).2.data.sum
      ≤ hdifAt e oldPos newPos := by
  simp only [sedimentStep]
  rw [if_neg hc, if_pos hh]
  simp only
  rw [add_sum e oldPos _ hsz hlen]
  have := min_le_right (cdifAt e oldPos newPos vel water sediment * EROSION)
    (hdifAt e oldPos newPos)
  linarith

/-- C5 (witness): the erosion bound applied to a one-cell grid where
the fresh droplet stays in place (height drop 0, erosion amount 0). -/
theorem erosion_bound_witness :
    (⟨[1], 1⟩ : Elevation).data.sum
        - (sedimentStep ⟨[1], 1⟩ ⟨0, 0⟩ ⟨0, 0⟩ 0 1 0).2.data.sum
      ≤ hdifAt ⟨[1], 1⟩ ⟨0, 0⟩ ⟨0, 0⟩ :=
  erosion_bound ⟨[1], 1⟩ ⟨0, 0⟩ ⟨0, 0⟩ 0 1 0 (by norm_num) rfl
    (by norm_num [cdifAt, hdifAt, heightAt, unroll, clampCoord, MINSLOPE, CAPACITY, List.getD])
    (by norm_num [heightAt, unroll, clampCoord, List.getD])

/-- C6 (counterexample): at a state whose combination of previous
direction and gradient is the zero vector (previous direction (1,0),
velocity 0, gradient (0,0)), the direction update does not return the
previous direction: it returns none, the model of the NaN vector
produced by normalizing the zero vector. -/
theorem normalize_zero_cex :
    (Vec2.smul ⟨1, 0⟩ (INERTIA * 0)).sub (Vec2.smul ⟨0, 0⟩ (1 - INERTIA * 0)) = (⟨0, 0⟩ : Vec2)
      ∧ dirStep (fun q => q) ⟨1, 0⟩ 0 ⟨0, 0⟩ ≠ some ⟨1, 0⟩ := by
  constructor
  · norm_num [Vec2.smul, Vec2.sub]
  · simp [dirStep, normalizeOpt, Vec2.smul, Vec2.sub, INERTIA]

/-- C6 (amended): the code has no zero-vector guard: whenever the input
of the normalization is the zero vector the direction update yields the
undefined (NaN) result, modelled as none, rather than keeping the
previous direction. -/
theorem normalize_zero_amended (sqrtf : ℚ → ℚ) (dir : Vec2) (vel : ℚ) (g : Vec2)
    (h : (dir.smul (INERTIA * vel)).sub (g.smul (1 - INERTIA * vel)) = ⟨0, 0⟩) :
    dirStep sqrtf dir vel g = none := by
  unfold dirStep normalizeOpt
  rw [h]
  simp

/-- C6 (witness): the amended theorem applied at the concrete
zero-input state. -/
theorem normalize_zero_witness : dirStep (fun q => q) ⟨1, 0⟩ 0 ⟨0, 0⟩ = none :=
  normalize_zero_amended (fun q => q) ⟨1, 0⟩ 0 ⟨0, 0⟩ (by norm_num [Vec2.smul, Vec2.sub])

/-- C7: for a grid of side at least 2 and any flat index inside the
grid, all four cells of the (shifted) 2x2 gradient window are in-bounds
reads of the height array. -/
theorem grad_in_bounds (e : Elevation) (i : ℕ) (hsz : 2 ≤ e.size)
    (hlen : e.data.length = e.size * e.size) (hi : i < e.size * e.size) :
    gradIndex e i < e.data.length ∧ gradIndex e i + 1 < e.data.length ∧
      gradIndex e i + e.size < e.data.length ∧
      gradIndex e i + 1 + e.size < e.data.length := by
  have hgi : gradIndex e i
      = (if e.size * e.size ≤ (if i % e.size = e.size - 1 then i - 1 else i) + e.size
          then (if i % e.size = e.size - 1 then i - 1 else i) - e.size
          else (if i % e.size = e.size - 1 then i - 1 else i)) := by
    simp only [gradIndex, hlen]
  obtain ⟨hc1, hc2⟩ := gradShiftCol_spec e.size i hsz hi
  have hi1 : (if i % e.size = e.size - 1 then i - 1 else i) < e.size * e.size :=
    lt_of_le_of_lt hc2 hi
  obtain ⟨hr1, hr2⟩ :=
    gradShiftRow_spec e.size (if i % e.size = e.size - 1 then i - 1 else i) hsz hi1
  rw [← hgi] at hr1 hr2
  have hjm : gradIndex e i % e.size ≤ e.size - 2 := by rw [hr2]; exact hc1
  have hdm := Nat.div_add_mod (gradIndex e i) e.size
  have h3 : e.size * (e.size - 1) + e.size * 1 = e.size * e.size := by
    rw [← Nat.mul_add]
    congr 1
    omega
  have hlt : gradIndex e i < e.size * (e.size - 1) := by omega
  have hdiv : gradIndex e i / e.size < e.size - 1 :=
    (Nat.div_lt_iff_lt_mul (show 0 < e.size by omega)).mpr
      (by rw [Nat.mul_comm (e.size - 1) e.size]; exact hlt)
  have hmul : e.size * (gradIndex e i / e.size) ≤ e.size * (e.size - 2) :=
    Nat.mul_le_mul_left _ (by omega)
  have h4 : e.size * (e.size - 2) + e.size * 2 = e.size * e.size := by
    rw [← Nat.mul_add]
    congr 1
    omega
  have main : gradIndex e i + 1 + e.size < e.size * e.size := by omega
  rw [hlen]
  exact ⟨by omega, by omega, by omega, main⟩

/-- C7 (witness): the in-bounds theorem applied to a 3x3 grid at the
last flat index 8 (bottom-right corner, both shifts taken). -/
theorem grad_in_bounds_witness :
    gradIndex ⟨[0, 0, 0, 0, 0, 0, 0, 0, 0], 3⟩ 8
        < (Elevation.data ⟨[0, 0, 0, 0, 0, 0, 0, 0, 0], 3⟩).length ∧
      gradIndex ⟨[0, 0, 0, 0, 0, 0, 0, 0, 0], 3⟩ 8 + 1
        < (Elevation.data ⟨[0, 0, 0, 0, 0, 0, 0, 0, 0], 3⟩).length ∧
      gradIndex ⟨[0, 0, 0, 0, 0, 0, 0, 0, 0], 3⟩ 8 + 3
        < (Elevation.data ⟨[0, 0, 0, 0, 0, 0, 0, 0, 0], 3⟩).length ∧
      gradIndex ⟨[0, 0, 0, 0, 0, 0, 0, 0, 0], 3⟩ 8 + 1 + 3
        < (Elevation.data ⟨[0, 0, 0, 0, 0, 0, 0, 0, 0], 3⟩).length :=
  grad_in_bounds ⟨[0, 0, 0, 0, 0, 0, 0, 0, 0], 3⟩ 8 (by norm_num) rfl (by norm_num)

/-- C8: the projection clamp behaves as claimed on both axes: negative
coordinates map to column/row 0, coordinates at least size map to
size - 1, in-range coordinates are truncated (floor of a non-negative
value), the flat index is always inside the grid, and the final modulo
on the clamped x is a no-op. -/
theorem unroll_clamp_spec (size : ℕ) (hsz : 1 ≤ size) (pos : Vec2) :
    (pos.x < 0 → clampCoord pos.x size = 0) ∧
    ((size : ℚ) ≤ pos.x → clampCoord pos.x size = size - 1) ∧
    (0 ≤ pos.x → pos.x < (size : ℚ) → (clampCoord pos.x size : ℤ) = ⌊pos.x⌋) ∧
    (pos.y < 0 → clampCoord pos.y size = 0) ∧
    ((size : ℚ) ≤ pos.y → clampCoord pos.y size = size - 1) ∧
    (0 ≤ pos.y → pos.y < (size : ℚ) → (clampCoord pos.y size : ℤ) = ⌊pos.y⌋) ∧
    unroll pos size < size * size ∧
    clampCoord pos.x size % size = clampCoord pos.x size := by
  have hneg : ∀ a : ℚ, a < 0 → clampCoord a size = 0 := by
    intro a h
    simp [clampCoord, h]
  have hhi : ∀ a : ℚ, (size : ℚ) ≤ a → clampCoord a size = size - 1 := by
    intro a h
    have h0 : ¬ a < 0 := not_lt.mpr (le_trans (by exact_mod_cast Nat.zero_le size) h)
    simp [clampCoord, h0, h]
  have hmid : ∀ a : ℚ, 0 ≤ a → a < (size : ℚ) → (clampCoord a size : ℤ) = ⌊a⌋ := by
    intro a h0 h1
    simp only [clampCoord, not_lt.mpr h0, if_false, not_le.mpr h1]
    exact Int.toNat_of_nonneg (Int.floor_nonneg.mpr h0)
  refine ⟨hneg pos.x, hhi pos.x, hmid pos.x, hneg pos.y, hhi pos.y, hmid pos.y,
    unroll_lt pos size hsz, Nat.mod_eq_of_lt (clampCoord_lt pos.x size hsz)⟩

/-- C8 (witness): the clamp theorem applied to the out-of-grid position
(-1, 3) on a 2x2 grid, extracting the in-range index bound. -/
theorem unroll_clamp_witness : unroll ⟨-1, 3⟩ 2 < 2 * 2 :=
  (unroll_clamp_spec 2 (by norm_num) ⟨-1, 3⟩).2.2.2.2.2.2.1

/-- C9: for a source with non-negative flux, after every tick the
accumulator lies in [0,1), and the total number of droplets emitted
over T ticks from a fresh source is the floor of flux * T (hence floor
or ceiling of flux * T, as claimed). -/
theorem source_flow_accuracy (pos : Vec2) (flux : ℚ) (hf : 0 ≤ flux) (T : ℕ) :
    (0 ≤ (Source.run pos flux T).1.stock ∧ (Source.run pos flux T).1.stock < 1) ∧
    (((Source.run pos flux T).2 : ℤ) = ⌊flux * (T : ℚ)⌋ ∨
      ((Source.run pos flux T).2 : ℤ) = ⌈flux * (T : ℚ)⌉) := by
  obtain ⟨h0, h1, _, hsum⟩ := source_run_invariant pos flux hf T
  refine ⟨⟨h0, h1⟩, Or.inl ?_⟩
  symm
  rw [Int.floor_eq_iff]
  constructor
  · push_cast
    linarith
  · push_cast
    linarith

/-- C9 (witness): a source of flux 1/2 run for 3 ticks emits 1 droplet
(the floor of 3/2) and ends with accumulator 1/2. -/
theorem source_flow_witness :
    (0 ≤ (Source.run ⟨0, 0⟩ (1/2) 3).1.stock ∧ (Source.run ⟨0, 0⟩ (1/2) 3).1.stock < 1) ∧
    (((Source.run ⟨0, 0⟩ (1/2) 3).2 : ℤ) = ⌊(1/2 : ℚ) * ((3 : ℕ) : ℚ)⌋ ∨
      ((Source.run ⟨0, 0⟩ (1/2) 3).2 : ℤ) = ⌈(1/2 : ℚ) * ((3 : ℕ) : ℚ)⌉) :=
  source_flow_accuracy ⟨0, 0⟩ (1/2) (by norm_num) 3

/-- C10 (counterexample): a fresh droplet (velocity 0, sediment 0)
stepping between two below-water cells (old height -2, new height -1)
does not take the erosion branch: the claim predicts sediment
min(0, -1) = -1 and a terrain change, while the code leaves both the
sediment (0) and the terrain unchanged. -/
theorem fresh_droplet_cex :
    ¬ sedimentStep ⟨[-2, -1, 0, 0], 2⟩ ⟨0, 0⟩ ⟨1, 0⟩ 0 1 0
        = (min 0 (hdifAt ⟨[-2, -1, 0, 0], 2⟩ ⟨0, 0⟩ ⟨1, 0⟩),
           Elevation.add ⟨[-2, -1, 0, 0], 2⟩ ⟨0, 0⟩
             (-(min 0 (hdifAt ⟨[-2, -1, 0, 0], 2⟩ ⟨0, 0⟩ ⟨1, 0⟩)))) := by
  intro h
  have h1 := congrArg Prod.fst h
  norm_num [sedimentStep, cdifAt, hdifAt, heightAt, unroll, clampCoord,
    MINSLOPE, CAPACITY, EROSION, DEPOSITION, List.getD] at h1

/-- C10 (amended): a fresh droplet (velocity 0, sediment 0) always has
capacity difference exactly 0; when the new cell is above water level
(height at least 0) it takes the erosion branch with amount
min(0, heightDrop); and whenever the step is downhill or level
(heightDrop at least 0) its first step leaves the sediment at 0 and the
terrain completely unchanged, whether or not the erosion branch ran. -/
theorem fresh_droplet_step (e : Elevation) (oldPos newPos : Vec2) (water : ℚ) :
    cdifAt e oldPos newPos 0 water 0 = 0 ∧
    (0 ≤ heightAt e newPos →
      sedimentStep e oldPos newPos 0 water 0
        = (min 0 (hdifAt e oldPos newPos),
           e.add oldPos (-(min 0 (hdifAt e oldPos newPos))))) ∧
    (0 ≤ hdifAt e oldPos newPos →
      (sedimentStep e oldPos newPos 0 water 0).1 = 0 ∧
      (sedimentStep e oldPos newPos 0 water 0).2.data = e.data) := by
  have hc : cdifAt e oldPos newPos 0 water 0 = 0 := by
    simp [cdifAt]
  refine ⟨hc, ?_, ?_⟩
  · intro hh
    simp only [sedimentStep, hc, if_pos hh]
    norm_num
  · intro hhd
    have hmin : min (0 : ℚ) (hdifAt e oldPos newPos) = 0 := min_eq_left hhd
    by_cases hh : 0 ≤ heightAt e newPos
    · simp only [sedimentStep, hc, if_pos hh]
      norm_num [hmin]
      exact add_zero_data e oldPos
    · simp only [sedimentStep, hc, if_neg hh]
      norm_num

/-- C10 (witness): the amended theorem applied to a fresh droplet whose
step lands on an above-water cell of a concrete 2x2 grid. -/
theorem fresh_droplet_witness :
    sedimentStep ⟨[0, 1, 0, 0], 2⟩ ⟨0, 0⟩ ⟨1, 0⟩ 0 1 0
      = (min 0 (hdifAt ⟨[0, 1, 0, 0], 2⟩ ⟨0, 0⟩ ⟨1, 0⟩),
         Elevation.add ⟨[0, 1, 0, 0], 2⟩ ⟨0, 0⟩
           (-(min 0 (hdifAt ⟨[0, 1, 0, 0], 2⟩ ⟨0, 0⟩ ⟨1, 0⟩)))) :=
  (fresh_droplet_step ⟨[0, 1, 0, 0], 2⟩ ⟨0, 0⟩ ⟨1, 0⟩ 1).2.1
    (by norm_num [heightAt, unroll, clampCoord, List.getD])

end TerrainGen
